import Mathlib

/-!
Verification of the HEPscore run-orchestration and score-reduction engine
(`hepscore/hepscore.py`) against its natural-language specification.

Scores are modelled as exact rationals (`ℚ`), and as reals (`ℝ`) where the
source takes a geometric mean.  Python's `sorted` is a stable sort; it is
modelled by `List.insertionSort`, which is also stable, so the two agree as
functions on lists.
-/

namespace HEPscoreV

/-- Comparison used by `sorted(vals.items(), key=operator.itemgetter(1))`:
compare `(runIndex, score)` pairs by score alone. -/
def scoreLe (a b : Nat × ℚ) : Prop := a.2 ≤ b.2

instance : DecidableRel scoreLe := fun a b => inferInstanceAs (Decidable (a.2 ≤ b.2))

instance : IsTotal (Nat × ℚ) scoreLe := ⟨fun a b => le_total a.2 b.2⟩

instance : IsTrans (Nat × ℚ) scoreLe := ⟨fun _ _ _ h1 h2 => le_trans h1 h2⟩

/-- `sorted_vals` of `median_tuple` (hepscore.py line 755): the run/score pairs
sorted by score with a stable sort. -/
def sortRuns (vals : List (Nat × ℚ)) : List (Nat × ℚ) := vals.insertionSort scoreLe

/-- `median_tuple` (hepscore.py lines 753-764).  The input models the Python
dict `vals` as its `items()` list (insertion order).  `med_ind` is
`int(len(sorted_vals)/2)`.  Odd count: return the score and index of the entry
at `med_ind` (the Python code reverses the `(index, score)` tuple).  Even
count: return the arithmetic mean of the scores at `med_ind - 1` and `med_ind`
and both indices, in that order. -/
def median_tuple (vals : List (Nat × ℚ)) : ℚ × List Nat :=
  if (sortRuns vals).length % 2 = 1 then
    (((sortRuns vals).getD ((sortRuns vals).length / 2) (0, 0)).2,
      [((sortRuns vals).getD ((sortRuns vals).length / 2) (0, 0)).1])
  else
    ((((sortRuns vals).getD ((sortRuns vals).length / 2 - 1) (0, 0)).2 +
        ((sortRuns vals).getD ((sortRuns vals).length / 2) (0, 0)).2) / 2,
      [((sortRuns vals).getD ((sortRuns vals).length / 2 - 1) (0, 0)).1,
        ((sortRuns vals).getD ((sortRuns vals).length / 2) (0, 0)).1])

/-- Modelled from the spec's words: the standard median of a list of scores —
sort ascending; odd length: the middle element; even length: the arithmetic
mean of the two middle elements. -/
def listMedianSpec (xs : List ℚ) : ℚ :=
  if (xs.insertionSort (· ≤ ·)).length % 2 = 1 then
    (xs.insertionSort (· ≤ ·)).getD ((xs.insertionSort (· ≤ ·)).length / 2) 0
  else
    ((xs.insertionSort (· ≤ ·)).getD ((xs.insertionSort (· ≤ ·)).length / 2 - 1) 0 +
      (xs.insertionSort (· ≤ ·)).getD ((xs.insertionSort (· ≤ ·)).length / 2) 0) / 2

theorem getD_map_snd (l : List (Nat × ℚ)) (n : Nat) :
    (l.map Prod.snd).getD n 0 = (l.getD n (0, 0)).2 := by
  induction l generalizing n with
  | nil => rfl
  | cons a t ih =>
    cases n with
    | zero => rfl
    | succ k => simpa using ih k

/-- Projecting the stably sorted pair list to its scores gives exactly the
sorted score list. -/
theorem map_snd_sortRuns (vals : List (Nat × ℚ)) :
    (sortRuns vals).map Prod.snd = (vals.map Prod.snd).insertionSort (· ≤ ·) := by
  apply List.eq_of_perm_of_sorted (r := (· ≤ · : ℚ → ℚ → Prop))
  · exact ((List.perm_insertionSort scoreLe vals).map Prod.snd).trans
      (List.perm_insertionSort _ (vals.map Prod.snd)).symm
  · exact List.pairwise_map.2 (List.sorted_insertionSort scoreLe vals)
  · exact List.sorted_insertionSort _ _

/-- C1: for a non-empty run-index → score mapping, `median_tuple` returns the
standard median of the score multiset, one run index when the count is odd and
two when it is even, and on a singleton mapping the single value and index. -/
theorem median_tuple_is_standard_median (vals : List (Nat × ℚ)) (hne : vals ≠ []) :
    (median_tuple vals).1 = listMedianSpec (vals.map Prod.snd) ∧
    (median_tuple vals).2.length = (if vals.length % 2 = 1 then 1 else 2) ∧
    (∀ i : Nat, ∀ v : ℚ, median_tuple [(i, v)] = (v, [i])) := by
  have hlen : (sortRuns vals).length = vals.length := List.length_insertionSort _ _
  have hlen2 : ((vals.map Prod.snd).insertionSort (· ≤ ·)).length = vals.length := by
    rw [List.length_insertionSort, List.length_map]
  refine ⟨?_, ?_, ?_⟩
  · by_cases hp : vals.length % 2 = 1
    · rw [median_tuple, listMedianSpec, if_pos (by rw [hlen]; exact hp),
        if_pos (by rw [hlen2]; exact hp), hlen, hlen2, ← map_snd_sortRuns, getD_map_snd]
    · rw [median_tuple, listMedianSpec, if_neg (by rw [hlen]; exact hp),
        if_neg (by rw [hlen2]; exact hp), hlen, hlen2, ← map_snd_sortRuns,
        getD_map_snd, getD_map_snd]
  · by_cases hp : vals.length % 2 = 1
    · rw [median_tuple, if_pos (by rw [hlen]; exact hp), if_pos hp]
      rfl
    · rw [median_tuple, if_neg (by rw [hlen]; exact hp), if_neg hp]
      rfl
  · intro i v
    simp [median_tuple, sortRuns, List.insertionSort, List.orderedInsert]

/-- Strict lexicographic order on `(runIndex, score)` pairs: score ascending,
ties broken by ascending run index. -/
def lexLt (a b : Nat × ℚ) : Prop := a.2 < b.2 ∨ (a.2 = b.2 ∧ a.1 < b.1)

instance : IsAntisymm (Nat × ℚ) lexLt := by
  constructor
  intro a b hab hba
  rcases hab with h | ⟨h2, h1⟩ <;> rcases hba with h' | ⟨h2', h1'⟩
  · exact absurd h' (lt_asymm h)
  · rw [h2'] at h
    exact absurd h (lt_irrefl _)
  · rw [h2] at h'
    exact absurd h' (lt_irrefl _)
  · exact absurd h1' (Nat.lt_asymm h1)

/-- Inserting a pair whose index is below every index in a lexicographically
strictly sorted list, at its stable position by score, keeps the list
lexicographically strictly sorted. -/
theorem orderedInsert_pairwise_lexLt (a : Nat × ℚ) (l : List (Nat × ℚ))
    (hl : l.Pairwise lexLt) (ha : ∀ b ∈ l, a.1 < b.1) :
    (l.orderedInsert scoreLe a).Pairwise lexLt := by
  induction l with
  | nil => simp
  | cons b t ih =>
    by_cases hab : scoreLe a b
    · rw [List.orderedInsert, if_pos hab]
      refine List.Pairwise.cons ?_ hl
      intro x hx
      have hax : a.1 < x.1 := ha x hx
      have h2 : a.2 ≤ x.2 := by
        rcases List.mem_cons.1 hx with rfl | hxt
        · exact hab
        · rcases (List.pairwise_cons.1 hl).1 x hxt with h | ⟨h, _⟩
          · exact le_trans hab (le_of_lt h)
          · exact le_trans hab (le_of_eq h)
      rcases lt_or_eq_of_le h2 with h | h
      · exact Or.inl h
      · exact Or.inr ⟨h, hax⟩
    · rw [List.orderedInsert, if_neg hab]
      have hba : b.2 < a.2 := lt_of_not_le hab
      refine List.Pairwise.cons ?_
        (ih (List.pairwise_cons.1 hl).2 fun c hc => ha c (List.mem_cons_of_mem b hc))
      intro y hy
      rcases (List.mem_orderedInsert scoreLe).1 hy with rfl | hyt
      · exact Or.inl hba
      · exact (List.pairwise_cons.1 hl).1 y hyt

/-- On inputs whose run indices are strictly ascending (as `_proc_results`
builds them, inserting keys `0, 1, 2, ...` in order), the stable sort by score
yields the list strictly sorted by (score, run index). -/
theorem sortRuns_pairwise_lexLt (vals : List (Nat × ℚ))
    (hasc : vals.Pairwise fun a b => a.1 < b.1) :
    (sortRuns vals).Pairwise lexLt := by
  induction vals with
  | nil => simp [sortRuns]
  | cons a t ih =>
    rw [sortRuns, List.insertionSort]
    apply orderedInsert_pairwise_lexLt
    · exact ih (List.pairwise_cons.1 hasc).2
    · intro b hb
      exact (List.pairwise_cons.1 hasc).1 b ((List.mem_insertionSort scoreLe).1 hb)

/-- C2: median selection is deterministic under tied scores.  For any mapping
whose run indices ascend in insertion order (every mapping `_proc_results`
constructs), the sorted pair list is a permutation of the input that is
strictly sorted by score ascending with ties resolved by ascending run index,
and it is the unique such list — so the returned index or index pair is
uniquely determined by the input mapping. -/
theorem median_tuple_deterministic_tiebreak (vals : List (Nat × ℚ))
    (hasc : vals.Pairwise fun a b => a.1 < b.1) :
    (sortRuns vals).Perm vals ∧ (sortRuns vals).Pairwise lexLt ∧
    (∀ l : List (Nat × ℚ), l.Perm vals → l.Pairwise lexLt → l = sortRuns vals) := by
  refine ⟨List.perm_insertionSort scoreLe vals, sortRuns_pairwise_lexLt vals hasc, ?_⟩
  intro l hp hs
  exact List.eq_of_perm_of_sorted (r := lexLt)
    (hp.trans (List.perm_insertionSort scoreLe vals).symm) hs
    (sortRuns_pairwise_lexLt vals hasc)

theorem median_tuple_deterministic_tiebreak_witness :
    (List.Pairwise (fun a b => a.1 < b.1) [((0 : Nat), (5 : ℚ)), (1, 5), (2, 4)]) ∧
    ((sortRuns [(0, 5), (1, 5), (2, 4)]).Perm [(0, 5), (1, 5), (2, 4)] ∧
      (sortRuns [(0, 5), (1, 5), (2, 4)]).Pairwise lexLt ∧
      (∀ l : List (Nat × ℚ), l.Perm [(0, 5), (1, 5), (2, 4)] → l.Pairwise lexLt →
        l = sortRuns [(0, 5), (1, 5), (2, 4)])) :=
  ⟨by simp, median_tuple_deterministic_tiebreak [(0, 5), (1, 5), (2, 4)] (by simp)⟩

theorem median_tuple_is_standard_median_witness :
    ([((0 : Nat), (3 : ℚ)), (1, 5)] ≠ []) ∧
    ((median_tuple [(0, 3), (1, 5)]).1 = listMedianSpec ([(0, 3), (1, 5)].map Prod.snd) ∧
      (median_tuple [(0, 3), (1, 5)]).2.length =
        (if ([((0 : Nat), (3 : ℚ)), (1, 5)].length % 2 = 1) then 1 else 2) ∧
      (∀ i : Nat, ∀ v : ℚ, median_tuple [(i, v)] = (v, [i]))) :=
  ⟨by simp, median_tuple_is_standard_median [(0, 3), (1, 5)] (by simp)⟩

/-- Run duration as recorded by `_run_benchmark` (hepscore.py lines 449-452):
`bench_conf[runstr]['duration'] = math.floor(endtime) - math.floor(starttime)`. -/
def run_duration (starttime endtime : ℚ) : ℤ := ⌊endtime⌋ - ⌊starttime⌋

/-- C9 counterexample: for a run starting at wall-clock 0.9 s and ending at
1.0 s, the recorded duration is 1, while the claim's
`floor(endTime - startTime)` is 0. -/
theorem run_duration_counterexample :
    run_duration (9 / 10) 1 = 1 ∧ (⌊(1 : ℚ) - 9 / 10⌋ : ℤ) = 0 ∧
    run_duration (9 / 10) 1 ≠ ⌊(1 : ℚ) - 9 / 10⌋ := by
  have h1 : run_duration (9 / 10) 1 = 1 := by
    rw [run_duration]
    norm_num [Int.floor_eq_iff]
  have h2 : (⌊(1 : ℚ) - 9 / 10⌋ : ℤ) = 0 := by
    norm_num [Int.floor_eq_iff]
  refine ⟨h1, h2, ?_⟩
  rw [h1, h2]
  decide

/-- C9 amended: the recorded duration is the difference of the truncated
endpoint timestamps, `floor(endTime) - floor(startTime)`; this equals the
truncated elapsed time `floor(endTime - startTime)` only up to one unit: it
always lies between it and it plus one. -/
theorem run_duration_amended (s e : ℚ) :
    run_duration s e = ⌊e⌋ - ⌊s⌋ ∧
    ⌊e - s⌋ ≤ run_duration s e ∧ run_duration s e ≤ ⌊e - s⌋ + 1 := by
  refine ⟨rfl, ?_, ?_⟩
  · rw [run_duration]
    have h1 : ((⌊e - s⌋ + ⌊s⌋ : ℤ) : ℚ) ≤ e := by
      push_cast
      calc ((⌊e - s⌋ : ℚ) + ⌊s⌋) ≤ (e - s) + s := add_le_add (Int.floor_le _) (Int.floor_le _)
      _ = e := by ring
    have h2 : ⌊e - s⌋ + ⌊s⌋ ≤ ⌊e⌋ := Int.le_floor.2 h1
    omega
  · rw [run_duration]
    have h1 : e < ((⌊e - s⌋ + ⌊s⌋ + 2 : ℤ) : ℚ) := by
      push_cast
      have ha := Int.lt_floor_add_one (e - s)
      have hb := Int.lt_floor_add_one s
      linarith
    have h2 : ⌊e⌋ < ⌊e - s⌋ + ⌊s⌋ + 2 := Int.floor_lt.2 h1
    omega

/-- Python's `round` to the nearest integer: round-half-to-even. -/
def roundHalfEven (x : ℚ) : ℤ :=
  if x - ⌊x⌋ < 1 / 2 then ⌊x⌋
  else if 1 / 2 < x - ⌊x⌋ then ⌊x⌋ + 1
  else if ⌊x⌋ % 2 = 0 then ⌊x⌋ else ⌊x⌋ + 1

/-- Python's `round(x, 4)` on exact values. -/
def round4 (x : ℚ) : ℚ := (roundHalfEven (x * 10000) : ℚ) / 10000

/-- Python's `round` to the nearest integer over the reals. -/
noncomputable def roundHalfEvenR (x : ℝ) : ℤ :=
  if x - ⌊x⌋ < 1 / 2 then ⌊x⌋
  else if 1 / 2 < x - ⌊x⌋ then ⌊x⌋ + 1
  else if ⌊x⌋ % 2 = 0 then ⌊x⌋ else ⌊x⌋ + 1

/-- Python's `round(x, 4)` over the reals. -/
noncomputable def round4R (x : ℝ) : ℝ := (roundHalfEvenR (x * 10000) : ℝ) / 10000

/-- `scipy.stats.gmean` on its defined domain: the n-th root of the product. -/
noncomputable def gmeanR (l : List ℝ) : ℝ := l.prod ^ ((l.length : ℝ)⁻¹)

/-- The normalized sub-score list of `_proc_results` (hepscore.py lines
137-143): for each sub-benchmark in `ref_scores` insertion order,
`round(float(jscore[key][sub_bmk]) / bench_conf['ref_scores'][sub_bmk], 4)`.
`raw` models the mapping `jscore[key]`. -/
def sub_results (refScores : List (String × ℚ)) (raw : String → ℚ) : List ℚ :=
  refScores.map fun p => round4 (raw p.1 / p.2)

/-- The run's stored reduced score (hepscore.py lines 144 and 155):
`results[i] = round(scipy.stats.gmean(sub_results), 4)`. -/
noncomputable def reducedScore (refScores : List (String × ℚ)) (raw : String → ℚ) : ℝ :=
  round4R (gmeanR ((sub_results refScores raw).map (fun q : ℚ => (q : ℝ))))

theorem roundHalfEven_intCast (z : ℤ) : roundHalfEven (z : ℚ) = z := by
  rw [roundHalfEven, Int.floor_intCast]
  norm_num

theorem roundHalfEvenR_intCast (z : ℤ) : roundHalfEvenR (z : ℝ) = z := by
  rw [roundHalfEvenR, Int.floor_intCast]
  norm_num

theorem round4_intCast (z : ℤ) : round4 (z : ℚ) = z := by
  have h : ((z : ℚ) * 10000) = ((z * 10000 : ℤ) : ℚ) := by push_cast; ring
  rw [round4, h, roundHalfEven_intCast]
  push_cast
  field_simp

theorem round4R_intCast (z : ℤ) : round4R (z : ℝ) = z := by
  have h : ((z : ℝ) * 10000) = ((z * 10000 : ℤ) : ℝ) := by push_cast; ring
  rw [round4R, h, roundHalfEvenR_intCast]
  push_cast
  field_simp

theorem round4R_not_irrational (x : ℝ) : ¬Irrational (round4R x) := by
  rw [round4R]
  have h : ((roundHalfEvenR (x * 10000) : ℝ) / 10000)
      = (((roundHalfEvenR (x * 10000) : ℚ) / 10000 : ℚ) : ℝ) := by
    push_cast
    ring
  rw [h]
  exact Rat.not_irrational _

/-- Reference scores for the C3 counterexample: two sub-benchmarks with
reference score 1. -/
def c3refs : List (String × ℚ) := [("sub1", 1), ("sub2", 1)]

/-- Raw artifact for the C3 counterexample: sub1 measured 1, sub2 measured 2. -/
def c3raw : String → ℚ := fun s => if s = "sub2" then 2 else 1

theorem c3_sub_results : sub_results c3refs c3raw = [1, 2] := by
  have h1 : round4 ((1 : ℚ)) = 1 := by
    have := round4_intCast 1
    norm_num at this
    simpa using this
  have h2 : round4 ((2 : ℚ)) = 2 := by
    have := round4_intCast 2
    norm_num at this
    simpa using this
  simp [sub_results, c3refs, c3raw, h1, h2]

/-- C3 counterexample: with reference scores `{sub1: 1, sub2: 1}` and raw
scores `{sub1: 1, sub2: 2}` the normalized list is `[1, 2]`, its geometric
mean is the irrational `sqrt 2`, and the stored reduced score — rounded to 4
decimal digits by line 155 — is a rational number, hence not equal to the
geometric mean as the claim states. -/
theorem reduced_score_ne_gmean :
    reducedScore c3refs c3raw ≠ gmeanR ((sub_results c3refs c3raw).map (fun q : ℚ => (q : ℝ))) := by
  intro heq
  have hg : gmeanR ((sub_results c3refs c3raw).map (fun q : ℚ => (q : ℝ))) = Real.sqrt 2 := by
    rw [c3_sub_results]
    have hl : (([1, 2] : List ℚ).map (fun q : ℚ => (q : ℝ))) = [(1 : ℝ), 2] := by norm_num
    rw [hl, gmeanR]
    have hp : ([(1 : ℝ), 2]).prod = 2 := by norm_num
    have hn : ((([(1 : ℝ), 2]).length : ℝ))⁻¹ = 1 / 2 := by norm_num
    rw [hp, hn, Real.sqrt_eq_rpow]
  rw [hg] at heq
  have : Irrational (reducedScore c3refs c3raw) := by
    rw [heq]
    exact irrational_sqrt_two
  exact round4R_not_irrational _ this

theorem round4_one : round4 1 = 1 := by
  have h := round4_intCast 1
  norm_num at h
  exact h

theorem round4R_one : round4R 1 = 1 := by
  have h := round4R_intCast 1
  norm_num at h
  exact h

/-- C3 amended: the run's reduced score is `round(·, 4)` of the geometric mean
of the ordered list (reference-score insertion order) of
`round(raw/ref, 4)` normalized sub-scores; and when every raw sub-score
equals its (positive) reference score exactly, every normalized sub-score is
1 and the reduced score is exactly 1. -/
theorem reduced_score_roundtrip (refScores : List (String × ℚ)) (raw : String → ℚ)
    (hne : refScores ≠ []) (hpos : ∀ p ∈ refScores, (0 : ℚ) < p.2)
    (heq : ∀ p ∈ refScores, raw p.1 = p.2) :
    reducedScore refScores raw
      = round4R (gmeanR ((sub_results refScores raw).map (fun q : ℚ => (q : ℝ)))) ∧
    sub_results refScores raw = List.replicate refScores.length 1 ∧
    reducedScore refScores raw = 1 := by
  have hsub : sub_results refScores raw = List.replicate refScores.length 1 := by
    rw [List.eq_replicate_iff]
    refine ⟨by rw [sub_results, List.length_map], ?_⟩
    intro b hb
    rcases List.mem_map.1 hb with ⟨p, hp, hpb⟩
    have hz : p.2 ≠ 0 := ne_of_gt (hpos p hp)
    rw [← hpb, heq p hp, div_self hz, round4_one]
  refine ⟨rfl, hsub, ?_⟩
  rw [reducedScore, hsub, List.map_replicate]
  have h1 : ((1 : ℚ) : ℝ) = 1 := by norm_num
  rw [h1, gmeanR, List.prod_replicate, one_pow, Real.one_rpow, round4R_one]

theorem reduced_score_roundtrip_witness :
    ([(("s1" : String), (2 : ℚ))] ≠ []) ∧
    (∀ p ∈ [(("s1" : String), (2 : ℚ))], (0 : ℚ) < p.2) ∧
    (∀ p ∈ [(("s1" : String), (2 : ℚ))], (fun _ : String => (2 : ℚ)) p.1 = p.2) ∧
    reducedScore [("s1", 2)] (fun _ => 2) = 1 :=
  ⟨by simp, by norm_num, by norm_num,
    (reduced_score_roundtrip [("s1", 2)] (fun _ => 2) (by simp) (by norm_num)
      (by norm_num)).2.2⟩

/-- `scipy.stats.gmean` as `gen_score` calls it, with `none` standing for the
floating-point NaN it produces on an empty list or on any negative input
(`exp(mean(log ...))`). -/
noncomputable def scipy_gmean (l : List ℝ) : Option ℝ :=
  if l ≠ [] ∧ ∀ x ∈ l, 0 ≤ x then some (gmeanR l) else none

/-- `gen_score` (hepscore.py lines 504-528): apply the configured method
(geometric mean) to the collected workload results, multiply by
`settings['scaling']` when present, round to 4 digits; `fres != fres`
(NaN, modelled by `none`) sets `score = -1` and `status = 'failed'`, otherwise
`score = fres` and `status = 'success'`.  Returns `(score, status)`. -/
noncomputable def gen_score (results : List ℝ) (scaling : Option ℝ) : ℝ × String :=
  match (scipy_gmean results).map fun g =>
      round4R (match scaling with | some s => g * s | none => g) with
  | none => (-1, "failed")
  | some v => (v, "success")

/-- C4: the final suite score is the geometric mean of the representative
scores times scaling (default 1.0), rounded to 4 digits — for `[1.0, 4.0]` and
scaling 1.0 it is exactly 2 — and a NaN from the method yields the invalid
score `-1` with status `failed`, never a partially valid number. -/
theorem gen_score_geometric_mean :
    gen_score [1, 4] (some 1) = (2, "success") ∧
    (∀ results : List ℝ, ∀ scaling : Option ℝ,
      scipy_gmean results = none → gen_score results scaling = (-1, "failed")) ∧
    (∀ results : List ℝ, gen_score results none = gen_score results (some 1)) := by
  refine ⟨?_, ?_, ?_⟩
  · have hcond : ([1, 4] : List ℝ) ≠ [] ∧ ∀ x ∈ ([1, 4] : List ℝ), 0 ≤ x := by
      constructor
      · simp
      · intro x hx
        rcases List.mem_cons.1 hx with rfl | hx
        · norm_num
        · simp at hx
          rw [hx]
          norm_num
    have hg : scipy_gmean [1, 4] = some (gmeanR [1, 4]) := by
      rw [scipy_gmean, if_pos hcond]
    have hv : gmeanR [(1 : ℝ), 4] = 2 := by
      rw [gmeanR]
      have hp : ([(1 : ℝ), 4]).prod = 4 := by norm_num
      have hn : ((([(1 : ℝ), 4]).length : ℝ))⁻¹ = 1 / 2 := by norm_num
      rw [hp, hn, ← Real.sqrt_eq_rpow]
      rw [show (4 : ℝ) = 2 ^ 2 by norm_num]
      exact Real.sqrt_sq (by norm_num)
    rw [gen_score, hg, hv]
    have h2 : round4R (2 : ℝ) = 2 := by
      have h := round4R_intCast 2
      norm_num at h
      exact h
    simp [h2]
  · intro results scaling h
    rw [gen_score, h]
    rfl
  · intro results
    cases hsc : scipy_gmean results with
    | none =>
      rw [gen_score, gen_score, hsc]
      rfl
    | some g =>
      rw [gen_score, gen_score, hsc]
      simp [mul_one]

theorem gen_score_geometric_mean_witness :
    scipy_gmean [(-1 : ℝ)] = none ∧ gen_score [(-1 : ℝ)] none = (-1, "failed") := by
  have hn : scipy_gmean [(-1 : ℝ)] = none := by
    rw [scipy_gmean, if_neg]
    intro hc
    have := hc.2 (-1) (by simp)
    norm_num at this
  exact ⟨hn, (gen_score_geometric_mean.2.1 [(-1 : ℝ)] none) hn⟩

/-- The failure gate and median step of `_proc_results` (hepscore.py lines
162-181).  `results` models the ordered dict of parsed run scores, `runs`
models `settings['repetitions']`.  `confHasTopAllowFail` models
`'allow_fail' in self.confobj.keys()` — the TOP-LEVEL config dict, exactly as
line 177 tests it — while `allowFailSetting` models
`self.confobj['settings']['allow_fail'] is not False`; `parseFail` models the
`fail` flag set by an earlier parse exception.  Returns `none` for the `-1`
failure returns and the median tuple otherwise. -/
def proc_results (results : List (Nat × ℚ)) (runs : Nat)
    (confHasTopAllowFail allowFailSetting parseFail : Bool) : Option (ℚ × List Nat) :=
  if results.length = 0 then none
  else if (parseFail || !(results.length == runs)) &&
      (!confHasTopAllowFail || !allowFailSetting) then none
  else some (median_tuple results)

/-- `_run_benchmark`'s return value as `run` sees it: `-1` on workload
failure, the median result otherwise. -/
def benchResult (parsed : List (Nat × ℚ)) (runs : Nat)
    (confHasTopAllowFail allowFailSetting parseFail : Bool) : ℚ :=
  match proc_results parsed runs confHasTopAllowFail allowFailSetting parseFail with
  | none => -1
  | some r => r.1

/-- The per-workload loop of `run` (hepscore.py lines 737-742): invoke each
benchmark in declared order, break on a negative result, otherwise append the
result.  Returns the appended results, the benchmark that broke the loop (if
any), and the list of benchmarks actually invoked. -/
def runLoop : List String → (String → ℚ) → List ℚ × Option String × List String
  | [], _ => ([], none, [])
  | b :: rest, f =>
    if f b < 0 then ([], some b, [b])
    else (f b :: (runLoop rest f).1, (runLoop rest f).2.1, b :: (runLoop rest f).2.2)

/-- Outcome of `run` (hepscore.py lines 737-749): `score`/`status` are `none`
when `run` leaves them untouched (they are set later by `gen_score`). -/
structure SuiteOutcome where
  results : List ℚ
  error : Option String
  score : Option ℚ
  status : Option String
  executed : List String
deriving DecidableEq

/-- `run` (hepscore.py lines 737-749): run the loop; if it broke on a negative
result, record the failing benchmark in `confobj['error']`, set
`score = -1` and `status = 'failed'`. -/
def runSuite (benchmarks : List String) (f : String → ℚ) : SuiteOutcome :=
  match (runLoop benchmarks f).2.1 with
  | some b =>
    ⟨(runLoop benchmarks f).1, some b, some (-1), some "failed", (runLoop benchmarks f).2.2⟩
  | none => ⟨(runLoop benchmarks f).1, none, none, none, (runLoop benchmarks f).2.2⟩

theorem runLoop_failfast (pre post : List String) (b : String) (f : String → ℚ)
    (hpre : ∀ w ∈ pre, 0 ≤ f w) (hb : f b < 0) :
    runLoop (pre ++ b :: post) f = (pre.map f, some b, pre ++ [b]) := by
  induction pre with
  | nil => simp [runLoop, hb]
  | cons w t ih =>
    have hw : ¬f w < 0 := not_lt.2 (hpre w (List.mem_cons_self w t))
    have ht := ih fun x hx => hpre x (List.mem_cons_of_mem w hx)
    simp [runLoop, hw, ht]

/-- C5: when a workload signals failure (a negative `_run_benchmark` result,
which is what a failing workload produces when `allow_fail` is false) the
whole suite fails: the loop stops, the failing workload's name is recorded in
`error`, `score` is `-1`, `status` is `failed`, and no later workload in
declared order is ever invoked. -/
theorem run_failfast_suite (pre post : List String) (b : String) (f : String → ℚ)
    (hpre : ∀ w ∈ pre, 0 ≤ f w) (hb : f b < 0) :
    runSuite (pre ++ b :: post) f =
      ⟨pre.map f, some b, some (-1), some "failed", pre ++ [b]⟩ := by
  rw [runSuite, runLoop_failfast pre post b f hpre hb]

/-- Per-workload results for the C5 witness: `wl-b` fails, the others
succeed. -/
def f5 : String → ℚ := fun w => if w = "wl-b" then -1 else 1

theorem run_failfast_suite_witness :
    (∀ w ∈ ["wl-a"], 0 ≤ f5 w) ∧ f5 "wl-b" < 0 ∧
    runSuite ["wl-a", "wl-b", "wl-c"] f5 =
      ⟨[1], some "wl-b", some (-1), some "failed", ["wl-a", "wl-b"]⟩ := by
  have h1 : ∀ w ∈ ["wl-a"], 0 ≤ f5 w := by
    intro w hw
    simp at hw
    rw [hw]; simp only [f5]
    rw [if_neg (by decide)]
    norm_num
  have h2 : f5 "wl-b" < 0 := by
    simp only [f5]
    rw [if_pos trivial]
    norm_num
  refine ⟨h1, h2, ?_⟩
  have h := run_failfast_suite ["wl-a"] ["wl-c"] "wl-b" f5 h1 h2
  have hmap : (["wl-a"].map f5) = [1] := by
    simp only [List.map, f5]
    rw [if_neg (by decide)]
  rw [show (["wl-a"] ++ "wl-b" :: ["wl-c"]) = ["wl-a", "wl-b", "wl-c"] from rfl] at h
  rw [h, hmap]
  rfl

/-- Per-workload results for the C6 evaluation: `wl-b`'s runs all fail to
parse (empty results dict), the others parse both repetitions with score 1;
`allow_fail` is true in the settings and even present at the top level. -/
def f6 : String → ℚ := fun w =>
  if w = "wl-b" then benchResult [] 2 true true false
  else benchResult [(0, 2), (1, 2)] 2 true true false

/-- C6: with `allow_fail = true` everywhere, a workload with no parsed results
makes `_proc_results` return `-1` (line 162: `len(results) == 0` precedes the
`allow_fail` gate), and `run` then breaks out of the workload loop, marks the
suite failed and never invokes the remaining workload — the code has no path
on which the suite continues past a fully failed workload. -/
theorem run_allow_fail_still_aborts :
    benchResult [] 2 true true false = -1 ∧
    benchResult [(0, 2), (1, 2)] 2 true true false = 2 ∧
    runSuite ["wl-a", "wl-b", "wl-c"] f6 =
      ⟨[2], some "wl-b", some (-1), some "failed", ["wl-a", "wl-b"]⟩ := by
  have hb : benchResult [] 2 true true false = -1 := by
    rw [benchResult, proc_results]
    rfl
  have hmed : median_tuple [(0, 2), (1, 2)] = (2, [0, 1]) := by
    have hs : sortRuns [(0, 2), (1, 2)] = [(0, 2), (1, 2)] := by
      rw [sortRuns]
      simp [List.insertionSort, List.orderedInsert, scoreLe]
    rw [median_tuple, hs]
    norm_num [List.getD_cons_zero, List.getD_cons_succ]
  have ha : benchResult [(0, 2), (1, 2)] 2 true true false = 2 := by
    rw [benchResult, proc_results, if_neg (by norm_num), if_neg (by decide), hmed]
  refine ⟨hb, ha, ?_⟩
  have hfa : f6 "wl-a" = 2 := by
    simp only [f6]
    rw [if_neg (by decide)]
    exact ha
  have hfb : f6 "wl-b" = -1 := by
    simp only [f6]
    rw [if_pos trivial]
    exact hb
  have hloop : runLoop ["wl-a", "wl-b", "wl-c"] f6 = ([2], some "wl-b", ["wl-a", "wl-b"]) := by
    rw [runLoop]
    rw [if_neg (by rw [hfa]; norm_num)]
    rw [runLoop]
    rw [if_pos (by rw [hfb]; norm_num)]
    rw [hfa]
  rw [runSuite, hloop]

/-- C7 failing input: exactly one of two repetitions parsed
(`results = {0: 1.0}`), `settings['allow_fail'] = True`, and — as in every
configuration `parse_conf` builds — no top-level `allow_fail` key in
`confobj`.  Line 177 tests `'allow_fail' not in self.confobj.keys()` (the top
level) rather than `self.confobj['settings']`, so the workload is failed even
though `allow_fail` is set; setting the (never normally present) top-level key
is what would let the median step run. -/
theorem proc_results_allow_fail_wrong_dict :
    proc_results [(0, 1)] 2 false true false = none ∧
    proc_results [(0, 1)] 2 true true false = some (1, [0]) ∧
    proc_results [(0, 1)] 2 false false false = none := by
  refine ⟨?_, ?_, ?_⟩
  · rw [proc_results]
    norm_num
  · rw [proc_results]
    have hmed : median_tuple [(0, 1)] = (1, [0]) := by
      simp [median_tuple, sortRuns, List.insertionSort, List.orderedInsert]
    norm_num [hmed]
  · rw [proc_results]
    norm_num

/-- Python's substring test `s.find(sub) != -1`, on character lists. -/
def listContainsSub (sub : List Char) : List Char → Bool
  | [] => decide (sub = [])
  | c :: t => sub.isPrefixOf (c :: t) || listContainsSub sub t

/-- The four ways `_cleanup_fs` can leave its guards. -/
inductive CleanupAction where
  | disabled
  | refuseNonRoot
  | refuseInvalidPath
  | proceed
deriving DecidableEq

/-- The guard structure of `_cleanup_fs` (hepscore.py lines 230-244).  If
`clean_files` is off the method returns `False` immediately; running docker as
non-root returns `False`; with `wp = resultsdir + "/" + benchmark`, the check
`benchmark == '' or benchmark.find('/') != -1 or os.path.abspath(wp) == '/'
or wp == '' or wp.find('..') != -1` returns `False`.  Only `proceed` reaches
the tar-and-remove loop (lines 245-272); every other constructor corresponds
to a `return False` placed before any `tarfile.open` or `shutil.rmtree`
call. -/
def cleanup_fs_decision (clean_files : Bool) (cec : String) (uid : Nat)
    (abspath : String → String) (resultsdir benchmark : String) : CleanupAction :=
  if clean_files = true then
    if cec = "docker" ∧ uid ≠ 0 then CleanupAction.refuseNonRoot
    else
      if benchmark = "" ∨ listContainsSub "/".data benchmark.data = true ∨
          abspath (resultsdir ++ "/" ++ benchmark) = "/" ∨
          (resultsdir ++ "/" ++ benchmark) = "" ∨
          listContainsSub "..".data (resultsdir ++ "/" ++ benchmark).data = true then
        CleanupAction.refuseInvalidPath
      else CleanupAction.proceed
  else CleanupAction.disabled

theorem listContainsSub_append_left (sub pre t : List Char)
    (h : listContainsSub sub t = true) :
    listContainsSub sub (pre ++ t) = true := by
  induction pre with
  | nil => simpa using h
  | cons c cs ih =>
    rw [List.cons_append, listContainsSub, Bool.or_eq_true]
    exact Or.inr ih

/-- C8: when the workload glob prefix is empty, contains a path separator, or
contains a parent-directory traversal segment, `_cleanup_fs` never reaches the
tar-and-remove loop — for every enabled/disabled state, backend, uid, and
`os.path.abspath` behaviour it takes one of the `return False` guard exits,
mutating nothing. -/
theorem cleanup_fs_refuses (clean_files : Bool) (cec : String) (uid : Nat)
    (abspath : String → String) (resultsdir benchmark : String)
    (h : benchmark = "" ∨ listContainsSub "/".data benchmark.data = true ∨
      listContainsSub "..".data benchmark.data = true) :
    cleanup_fs_decision clean_files cec uid abspath resultsdir benchmark ≠
      CleanupAction.proceed := by
  have hcond : benchmark = "" ∨ listContainsSub "/".data benchmark.data = true ∨
      abspath (resultsdir ++ "/" ++ benchmark) = "/" ∨
      (resultsdir ++ "/" ++ benchmark) = "" ∨
      listContainsSub "..".data (resultsdir ++ "/" ++ benchmark).data = true := by
    rcases h with h | h | h
    · exact Or.inl h
    · exact Or.inr (Or.inl h)
    · refine Or.inr (Or.inr (Or.inr (Or.inr ?_)))
      rw [String.data_append]
      exact listContainsSub_append_left _ _ _ h
  rw [cleanup_fs_decision]
  by_cases hcf : clean_files = true
  · rw [if_pos hcf]
    by_cases hdocker : cec = "docker" ∧ uid ≠ 0
    · rw [if_pos hdocker]
      intro hx
      exact CleanupAction.noConfusion hx
    · rw [if_neg hdocker, if_pos hcond]
      intro hx
      exact CleanupAction.noConfusion hx
  · rw [if_neg hcf]
    intro hx
    exact CleanupAction.noConfusion hx

theorem cleanup_fs_refuses_witness :
    (("run.." : String) = "" ∨ listContainsSub "/".data ("run.." : String).data = true ∨
      listContainsSub "..".data ("run.." : String).data = true) ∧
    cleanup_fs_decision true "docker" 0 (fun s => s) "/tmp/hep_rd" "run.." ≠
      CleanupAction.proceed :=
  ⟨Or.inr (Or.inr (by decide)),
    cleanup_fs_refuses true "docker" 0 (fun s => s) "/tmp/hep_rd" "run.."
      (Or.inr (Or.inr (by decide)))⟩

/-- One benchmark's configuration entry as `parse_conf` inspects it: the keys
of its `args` mapping and its `ref_scores` mapping (`none` when the section is
missing; a value of `none` models a reference score `float()` rejects). -/
structure BmkConf where
  args_keys : List String
  ref_scores : Option (List (String × Option ℚ))
deriving DecidableEq

/-- The validation `parse_conf` applies to one (non-skipped) benchmark entry
(hepscore.py lines 634-662): name matches `^[a-zA-Z0-9\-_]*$`, name contains
a `-`, `args` has `version` and `scorekey`, `ref_scores` exists and every
reference score parses as a float. -/
def validate_bmk (name : String) (c : BmkConf) : Bool :=
  name.data.all (fun ch => ch.isAlphanum || ch == '-' || ch == '_') &&
  name.data.contains '-' &&
  c.args_keys.contains "version" &&
  c.args_keys.contains "scorekey" &&
  (match c.ref_scores with
   | none => false
   | some refs => refs.all fun p => p.2.isSome)

/-- The benchmarks loop of `parse_conf` (hepscore.py lines 623-662): walk the
entries in order, increment `bcount` for every entry, silently drop an entry
whose name starts with `'.'` (the `continue` happens before any validation),
abort (`sys.exit`, modelled as `none`) on the first entry failing validation,
and keep the rest.  Returns `(bcount, surviving entries)`. -/
def count_and_filter : List (String × BmkConf) → Option (Nat × List (String × BmkConf))
  | [] => some (0, [])
  | (name, c) :: rest =>
    if name.data.head? = some '.' then
      (count_and_filter rest).map fun r => (r.1 + 1, r.2)
    else if validate_bmk name c then
      (count_and_filter rest).map fun r => (r.1 + 1, (name, c) :: r.2)
    else none

/-- The tail of `parse_conf` (hepscore.py lines 664-666): after the loop,
`bcount == 0` is a fatal configuration error; otherwise the surviving
benchmark entries are kept. -/
def parse_conf_benchmarks (bmks : List (String × BmkConf)) :
    Option (List (String × BmkConf)) :=
  match count_and_filter bmks with
  | none => none
  | some r => if r.1 = 0 then none else some r.2

/-- C10: an entry whose name begins with `'.'` is dropped before any
validation — wherever it sits, the loop's outcome is exactly that of the list
without it except that `bcount` is one higher, for every content `c` of the
entry (so its name characters, required options and reference scores are never
checked) — and a configuration whose only entry is such a benchmark still
passes the at-least-one-benchmark check, yielding an empty benchmark list. -/
theorem parse_conf_skips_dotted (pre post : List (String × BmkConf)) (name : String)
    (c : BmkConf) (hdot : name.data.head? = some '.') :
    count_and_filter (pre ++ (name, c) :: post)
      = (count_and_filter (pre ++ post)).map (fun r => (r.1 + 1, r.2)) ∧
    parse_conf_benchmarks [(name, c)] = some [] := by
  constructor
  · induction pre with
    | nil =>
      rw [List.nil_append, List.nil_append, count_and_filter, if_pos hdot]
    | cons e t ih =>
      rw [List.cons_append, List.cons_append, count_and_filter, count_and_filter]
      by_cases h1 : e.1.data.head? = some '.'
      · rw [if_pos h1, if_pos h1, ih]
      · rw [if_neg h1, if_neg h1]
        by_cases h2 : validate_bmk e.1 e.2 = true
        · rw [if_pos h2, if_pos h2, ih]
          cases count_and_filter (t ++ post) with
          | none => rfl
          | some r => rfl
        · rw [if_neg h2, if_neg h2]
          rfl
  · rw [parse_conf_benchmarks, count_and_filter, if_pos hdot, count_and_filter]
    rfl

theorem parse_conf_skips_dotted_witness :
    ((".disabled-bmk" : String).data.head? = some '.') ∧
    (count_and_filter [((".disabled-bmk" : String), BmkConf.mk [] none)]
        = (count_and_filter []).map (fun r => (r.1 + 1, r.2)) ∧
      parse_conf_benchmarks [((".disabled-bmk" : String), BmkConf.mk [] none)] = some []) :=
  ⟨by decide,
    parse_conf_skips_dotted [] [] ".disabled-bmk" (BmkConf.mk [] none) (by decide)⟩

end HEPscoreV
